import Mathlib

/-!
Shallow embedding of the ferreteria price-engine core (`src/motor_precios.py`)
and proofs about its specification claims.

Modelling conventions:
* Python `float` values are modelled as rationals (`ℚ`); Python's binary
  floating point rounding is not modelled.
* Python strings are Lean `String`s; per-character work happens on `List Char`.
* Python's `float(...)` literal parser is modelled by `parseFloat?` for the
  decimal forms `[+|-] digits [. digits]` with surrounding whitespace
  (exponents, `inf`/`nan` and digit-group underscores are not modelled).
* `dict`s keyed by strings are association lists in insertion order.
-/

set_option maxRecDepth 8000

namespace Ferreteria

/-! ## Basic string helpers -/

/-- Index (from the left) of the first occurrence of `c`; length if absent. -/
def idxOfC (c : Char) : List Char → Nat
  | [] => 0
  | d :: r => if d = c then 0 else idxOfC c r + 1

/-- Python `val.rfind(c)` : highest index of `c`, `-1` if absent. -/
def pyRfind (l : List Char) (c : Char) : Int :=
  if c ∈ l then (l.length : Int) - 1 - (idxOfC c l.reverse : Int) else -1

/-- Python `val.split(sep)` on characters: always returns at least one
(possibly empty) segment. -/
def pySplit (sep : Char) : List Char → List (List Char)
  | [] => [[]]
  | c :: rest =>
    let r := pySplit sep rest
    if c = sep then [] :: r
    else
      match r with
      | g :: gs => (c :: g) :: gs
      | [] => [[c]]

/-- The segment after the last `sep` (the last segment of `pySplit`). -/
def lastSeg (sep : Char) (l : List Char) : List Char :=
  (pySplit sep l).getLast?.getD []

def trimWsL (l : List Char) : List Char :=
  ((l.dropWhile (·.isWhitespace)).reverse.dropWhile (·.isWhitespace)).reverse

/-- Python `s.strip()`. -/
def pyStrip (s : String) : String := ⟨trimWsL s.data⟩

/-- Python `s.lower()` (ASCII case folding suffices here). -/
def pyLower (s : String) : String := ⟨s.data.map Char.toLower⟩

/-- Fuelled left-to-right non-overlapping replacement (the fuel, set to the
text length, never runs out for nonempty patterns). -/
def replaceGo (pat rep : List Char) : Nat → List Char → List Char
  | _, [] => []
  | 0, l => l
  | fuel + 1, c :: rest =>
    if pat.isPrefixOf (c :: rest) then
      rep ++ replaceGo pat rep fuel ((c :: rest).drop pat.length)
    else c :: replaceGo pat rep fuel rest

/-- Python `s.replace(pat, rep)` for nonempty `pat`. -/
def pyReplace (s pat rep : String) : String :=
  if pat.data = [] then s else ⟨replaceGo pat.data rep.data s.data.length s.data⟩

/-- Strip currency markers exactly as the source does:
`str(val).strip().replace("$", "").replace("USD", "").replace("EUR", "")`. -/
def cleanTok (s : String) : String :=
  pyReplace (pyReplace (pyReplace (pyStrip s) "$" "") "USD" "") "EUR" ""

/-- Numeric value of a digit list (most significant first). -/
def digitsVal (l : List Char) : Nat :=
  l.foldl (fun a c => a * 10 + (c.toNat - 48)) 0

def allDigits (l : List Char) : Bool := l.all (·.isDigit)

/-- Model of Python `float(s)` on the decimal subset
`[whitespace] [+|-] digits [. digits] [whitespace]` (at least one digit). -/
def parseFloat? (l : List Char) : Option ℚ :=
  let l := trimWsL l
  let sign : ℚ := if l.head? = some '-' then -1 else 1
  let l := if l.head? = some '-' ∨ l.head? = some '+' then l.tail else l
  match pySplit '.' l with
  | [a] =>
    if a ≠ [] ∧ allDigits a then some (sign * (digitsVal a : ℚ)) else none
  | [a, b] =>
    if (a ≠ [] ∨ b ≠ []) ∧ allDigits a ∧ allDigits b then
      some (sign * ((digitsVal a : ℚ) + (digitsVal b : ℚ) / 10 ^ b.length))
    else none
  | _ => none

/-- `parseFloat?` followed by the strict-positivity filter of the source
(`return f if f > 0 else None`). -/
def posParse (l : List Char) : Option ℚ :=
  match parseFloat? l with
  | some f => if f > 0 then some f else none
  | none => none

/-! ## NumericNormalizer: `limpiar_precio` (src/motor_precios.py:379-398) -/

/-- The separator-normalisation step of `limpiar_precio`: decide the role of
`,` and `.` exactly as the source's branch structure does. -/
def normalizarSeparadores (val : List Char) : List Char :=
  if ',' ∈ val ∧ '.' ∈ val then
    if pyRfind val ',' > pyRfind val '.' then
      (val.filter (· ≠ '.')).map (fun c => if c = ',' then '.' else c)
    else
      val.filter (· ≠ ',')
  else if ',' ∈ val then
    val.map (fun c => if c = ',' then '.' else c)
  else if '.' ∈ val then
    if (pySplit '.' val).length > 1 ∧ (lastSeg '.' val).length = 3 then
      val.filter (· ≠ '.')
    else val
  else val

/-- `limpiar_precio` from `_limpieza_final`: strict price parser.  Returns the
parsed strictly-positive value, `none` when the cell is rejected. -/
def limpiar_precio (v : String) : Option ℚ :=
  posParse (normalizarSeparadores (cleanTok v).data)

/-- The thousand-separator condition exactly as claim C2 words it: the segment
after the last `.` has exactly three digits and at least one (nonempty) digit
group precedes it. -/
def specCondC2 (val : List Char) : Bool :=
  let ps := pySplit '.' val
  let last := ps.getLast?.getD []
  last.length = 3 ∧ allDigits last ∧
    (ps.dropLast).any (fun g => g ≠ [] ∧ allDigits g)

/-- The value claim C2 predicts for a token whose cleaned form contains `.`
but no `,`: remove every dot exactly when `specCondC2` holds, otherwise keep
the dot as decimal separator; then parse with the positivity filter. -/
def claimC2_value (v : String) : Option ℚ :=
  let val := (cleanTok v).data
  if specCondC2 val then posParse (val.filter (· ≠ '.')) else posParse val

/-! ## PricingEngine (src/motor_precios.py:753-790) -/

/-- Normalised supplier configuration as returned by `obtener_info_config`. -/
structure SupplierConfig where
  margen : ℚ
  desc1 : ℚ
  desc2 : ℚ
deriving DecidableEq, Repr

/-- A raw per-supplier entry of `margenes_por_proveedor`: either a bare number
or a record whose three fields may each be absent. -/
inductive MargenRaw where
  | scalar (q : ℚ)
  | record (margen desc1 desc2 : Option ℚ)
deriving DecidableEq, Repr

/-- First-match lookup in an insertion-ordered string-keyed dict. -/
def dictGet (l : List (String × α)) (k : String) : Option α :=
  (l.find? (fun p => p.1 = k)).map (·.2)

/-- `round(x, 2)` : round to two decimal places. -/
def round2 (x : ℚ) : ℚ := (round (x * 100) : ℤ) / 100

/-- `calcular_precio_final` (src/motor_precios.py:769-790): cascade discounts
(each applied only when strictly positive), then the markup, then round. -/
def calcular_precio_final (precio_costo : ℚ) (config : SupplierConfig) : ℚ :=
  let costo_neto := precio_costo
  let costo_neto :=
    if config.desc1 > 0 then costo_neto * (1 - config.desc1 / 100) else costo_neto
  let costo_neto :=
    if config.desc2 > 0 then costo_neto * (1 - config.desc2 / 100) else costo_neto
  round2 (costo_neto * (1 + config.margen / 100))

/-! ## Stable sorting

Python's `list.sort` / `sorted` / tie-stable top-k selection are stable sorts;
any stable sort over the same total preorder computes the same list, so we
model them with a structurally recursive stable insertion sort. -/

/-- Insert `x` before the first element `y` with `le x y`; elements equal
under the preorder that were earlier in the input stay in front. -/
def insStable (le : α → α → Bool) (x : α) : List α → List α
  | [] => [x]
  | y :: r => if le x y then x :: y :: r else y :: insStable le x r

/-- Stable insertion sort. -/
def stableSort (le : α → α → Bool) : List α → List α
  | [] => []
  | x :: r => insStable le x (stableSort le r)

/-! ## FinalCleanup: `_limpieza_final` (src/motor_precios.py:376-407) -/

/-- One raw row after column selection: the `Codigo`, `Producto` and
`Precio de Costo` cells as strings. -/
structure RawRow where
  codigo : String
  producto : String
  precio : String
deriving DecidableEq, Repr

/-- One cleaned catalog row. -/
structure NormalizedRow where
  codigo : String
  producto : String
  precio : ℚ
deriving DecidableEq, Repr

/-- `Codigo` cell cleanup: `.astype(str).str.strip().replace("nan", "")`
(pandas `Series.replace` replaces exactly-equal values). -/
def limpiezaCodigo (c : String) : String :=
  let t := pyStrip c
  if t = "nan" then "" else t

/-- `_limpieza_final`, row-wise: parse the price (dropping failures), trim the
product (dropping length ≤ 1), clean the code.  The source applies these
column-by-column; they are independent per row, so the row-wise `filterMap`
computes the same table. -/
def limpiezaFinal (rows : List RawRow) : List NormalizedRow :=
  rows.filterMap (fun r =>
    match limpiar_precio r.precio with
    | none => none
    | some c =>
      let p := pyStrip r.producto
      if 1 < p.length then some ⟨limpiezaCodigo r.codigo, p, c⟩ else none)

/-! ## SchemaInferencer: `_procesar_dataframe_inteligente`
(src/motor_precios.py:165-374)

A pandas DataFrame read with `header=None` has `RangeIndex` columns
`0,1,2,...`; extractor-produced frames carry string labels.  We model a frame
as a list of column labels plus a row-major grid of strings.  In the automatic
path the source addresses columns by their `RangeIndex` label, which for
reader-produced frames coincides with the position; the model uses positions
there. -/

structure DF where
  cols : List String
  rows : List (List String)
deriving DecidableEq, Repr

/-- Manual mapping document (`<file>.json`), after `int(...)` coercion:
missing indices default to `-1`, `skip_rows` to `0`. -/
structure Mapeo where
  col_producto : Int := -1
  col_precio : Int := -1
  col_codigo : Int := -1
  skip_rows : Int := 0
deriving DecidableEq, Repr

/-- Python sequence indexing with negative wrap-around; `none` models the
`IndexError` case. -/
def pyIdx (l : List α) (i : Int) : Option α :=
  if 0 ≤ i then l.get? i.toNat
  else if (-i).toNat ≤ l.length then l.get? (l.length - (-i).toNat) else none

/-- Last-wins lookup in a Python dict literal built by successive insertions
(models `{a: x, b: y}` followed by `d[c] = z`). -/
def dictLast (m : List (String × String)) (k : String) : Option String :=
  (m.reverse.find? (fun p => p.1 = k)).map (·.2)

/-- Cell of row `r` at column position `j` (missing cells read as `""`). -/
def cellAt (row : List String) (j : Nat) : String := (row.get? j).getD ""

/-- Extract `(Codigo, Producto, Precio)` triples by first occurrence of the
renamed column labels; `none` models the `KeyError` (a required label was
lost), which the source turns into the automatic-path fallback. -/
def triplesByName (cols : List String) (rows : List (List String)) :
    Option (List RawRow) :=
  match cols.indexOf? "Producto", cols.indexOf? "Precio de Costo" with
  | some jp, some jq =>
    let jc := (cols.indexOf? "Codigo").getD cols.length
    some (rows.map (fun row => ⟨cellAt row jc, cellAt row jp, cellAt row jq⟩))
  | _, _ => none

/-- Append an empty `Codigo` column when absent
(`if "Codigo" not in df.columns: df["Codigo"] = ""`). -/
def ensureCodigo (df : DF) : DF :=
  if "Codigo" ∈ df.cols then df
  else ⟨df.cols ++ ["Codigo"], df.rows.map (· ++ [""])⟩

/-- The manual-mapping branch.  `none` models an exception escaping the
`try`, upon which the source falls through to the automatic path; `some rows`
is a normal return carrying the selected raw rows (`some []` is the explicit
`return pd.DataFrame()` for out-of-range indices). -/
def seleccionManual (df : DF) (mp : Mapeo) : Option (List RawRow) :=
  let rows := if mp.skip_rows > 0 then df.rows.drop mp.skip_rows.toNat else df.rows
  let maxIdx : Int := (df.cols.length : Int) - 1
  if mp.col_producto > maxIdx ∨ mp.col_precio > maxIdx then some []
  else
    match pyIdx df.cols mp.col_producto, pyIdx df.cols mp.col_precio with
    | some nProd, some nPrec =>
      let mapa := [(nProd, "Producto"), (nPrec, "Precio de Costo")]
      let mapa :=
        if 0 ≤ mp.col_codigo ∧ mp.col_codigo ≤ maxIdx then
          mapa ++ [((pyIdx df.cols mp.col_codigo).getD "", "Codigo")]
        else mapa
      let newCols := df.cols.map (fun c => (dictLast mapa c).getD c)
      let dfR := ensureCodigo ⟨newCols, rows⟩
      triplesByName dfR.cols dfR.rows
    | _, _ => none

/-! ### Automatic path: column density scoring -/

/-- `es_numero_posible`: majority of the cleaned token's characters are
digits. -/
def esNumeroPosible (s : String) : Bool :=
  let t := pyLower (cleanTok s)
  if t = "" ∨ t = "nan" then false
  else ((t.data.countP (·.isDigit) : ℚ) / (t.length : ℚ)) > 1/2

/-- `tiene_decimales`: the stripped token contains `,` or `.`. -/
def tieneDecimales (s : String) : Bool :=
  let t := pyStrip s
  ',' ∈ t.data ∨ '.' ∈ t.data

/-- `es_producto`: length ≥ 4, not `nan`, majority letters/whitespace. -/
def esProducto (s : String) : Bool :=
  let t := pyStrip s
  if t.length < 4 ∨ pyLower t = "nan" then false
  else ((t.data.countP (fun c => c.isAlpha ∨ c.isWhitespace) : ℚ) / (t.length : ℚ)) > 6/10

/-- `es_codigo`: not `nan`, 1 < length < 18, contains a digit. -/
def esCodigo (s : String) : Bool :=
  let t := pyStrip s
  if pyLower t = "nan" then false
  else 1 < t.length ∧ t.length < 18 ∧ t.data.any (·.isDigit)

/-- The four density scores of one column, over the sampled cells. -/
structure ColScores where
  precio : ℚ
  decimales : ℚ
  producto : ℚ
  codigo : ℚ
deriving DecidableEq, Repr

/-- Scores of the column at position `j` over the sample rows. -/
def colScores (sample : List (List String)) (j : Nat) : ColScores :=
  let cells := sample.map (fun row => cellAt row j)
  let total : ℚ := (cells.length : ℚ)
  let stripped := cells.map pyStrip
  let unicos : ℚ := (stripped.dedup.length : ℚ)
  let avgLen : ℚ := ((stripped.map String.length).sum : ℚ) / total
  let hitsNum : ℚ := (cells.countP esNumeroPosible : ℚ)
  let hitsDec : ℚ := (cells.countP (fun x => esNumeroPosible x ∧ tieneDecimales x) : ℚ)
  let hitsProd : ℚ := (cells.countP esProducto : ℚ)
  let hitsCod : ℚ := (cells.countP esCodigo : ℚ)
  ⟨hitsNum / total, hitsDec / total,
   (hitsProd / total) * avgLen, (hitsCod / total) * (unicos / total)⟩

/-- `range(0, total, step)` with `step = max(1, total // 200)`. -/
def sampleRows (rows : List (List String)) : List (List String) :=
  let total := rows.length
  let step := max 1 (total / 200)
  ((List.range ((total + step - 1) / step)).map (· * step)).filterMap rows.get?

/-- The tie-break scan selecting the price column: walk the sorted candidate
list, hopping to a candidate whose decimal score clearly beats the current
best while its numeric score is within `0.2`; stop at the first larger gap. -/
def pickPrecio (sc : Nat → ColScores) : List Nat → Nat → Nat
  | [], best => best
  | c :: rest, best =>
    if (sc best).precio - (sc c).precio < 2/10 then
      pickPrecio sc rest
        (if (sc c).decimales > (sc best).decimales + 1/10 then c else best)
    else best

/-- First key attaining the maximum value (Python `max(dict, key=get)`). -/
def maxByFirst (l : List (Nat × ℚ)) : Option Nat :=
  l.foldl
    (fun acc p =>
      match acc with
      | none => some p
      | some q => if p.2 > q.2 then some p else some q)
    none |>.map (·.1)

/-- Code-column choice: double scores of columns left of the product column,
halve the rest, keep the first strict maximum (initial best score `-1`). -/
def pickCodigo (sc : Nat → ColScores) (idxProd : Nat) (cands : List Nat) :
    Option Nat :=
  (cands.foldl
    (fun acc c =>
      let base := (sc c).codigo * (if c < idxProd then 2 else 1/2)
      match acc with
      | none => if base > -1 then some (c, base) else none
      | some q => if base > q.2 then some (c, base) else some q)
    none).map (·.1)

/-- The automatic column-density selection.  Returns the selected raw rows
(`[]` models every `return pd.DataFrame()`).  Columns are addressed
positionally; the truthiness tests `if not col_producto or not col_precio`
and `if col_codigo` on the `RangeIndex` labels make position 0 falsy. -/
def seleccionAuto (df : DF) : List RawRow :=
  let ncols := df.cols.length
  let sample := sampleRows df.rows
  let sc := fun j => colScores sample j
  let sel : Option (Nat × Nat × Option Nat) :=
    if ncols = 2 then
      if (sc 1).precio > 3/10 ∧ (sc 0).producto > 3/10 then some (0, 1, none)
      else if (sc 0).precio > 3/10 ∧ (sc 1).producto > 3/10 then some (1, 0, none)
      else none
    else
      let candidatos := (List.range ncols).filter (fun j => (sc j).precio > 1/10)
      match stableSort (fun a b => decide ((sc b).precio ≤ (sc a).precio)) candidatos with
      | [] => none
      | best :: restCands =>
        let colPrecio := pickPrecio sc restCands best
        let posiblesProds :=
          ((List.range ncols).filter (· ≠ colPrecio)).filter
            (fun j => (sc j).producto > 5/10)
        match maxByFirst (posiblesProds.map (fun j => (j, (sc j).producto))) with
        | none => none
        | some colProducto =>
          let candsCod :=
            ((List.range ncols).filter
              (fun j => j ≠ colPrecio ∧ j ≠ colProducto)).filter
              (fun j => (sc j).codigo > 5/100)
          some (colProducto, colPrecio, pickCodigo sc colProducto candsCod)
  match sel with
  | none => []
  | some (colProducto, colPrecio, colCodigo) =>
    if colProducto = 0 ∨ colPrecio = 0 then []
    else
      let jc := fun (row : List String) =>
        match colCodigo with
        | some c => if c ≠ 0 then cellAt row c else ""
        | none => ""
      df.rows.map (fun row => ⟨jc row, cellAt row colProducto, cellAt row colPrecio⟩)

/-- Row selection of `_procesar_dataframe_inteligente`: short-circuit for
already-labelled frames, then the manual branch (falling through to the
automatic one on an exception), then the automatic branch. -/
def seleccionFilas (df : DF) (mapeo : Option Mapeo) : List RawRow :=
  if "Producto" ∈ df.cols ∧ "Precio de Costo" ∈ df.cols then
    let dfc := ensureCodigo df
    (triplesByName dfc.cols dfc.rows).getD []
  else if df.rows.length = 0 then []
  else
    match mapeo with
    | some mp =>
      match seleccionManual df mp with
      | some res => res
      | none => seleccionAuto df
    | none => seleccionAuto df

/-- Full `_procesar_dataframe_inteligente`: every branch that returns a
non-empty table passes through `_limpieza_final`, and every bare
`return pd.DataFrame()` equals the cleanup of no rows. -/
def procesar (df : DF) (mapeo : Option Mapeo) : List NormalizedRow :=
  limpiezaFinal (seleccionFilas df mapeo)

/-- The automatic path alone, cleaned — what a fallback to automatic
inference would produce. -/
def procesarAuto (df : DF) : List NormalizedRow :=
  limpiezaFinal (seleccionAuto df)

/-! ## Fuzzy scorer

Modelled from the spec: `thefuzz`'s `fuzz.partial_token_sort_ratio` is library
code outside `src/`; the spec's design note prescribes "tokenize by
whitespace, sort tokens, compute normalized edit-distance similarity on the
best-aligned substring; return an integer in 0..100", which is what this model
implements (the library's `full_process` pre-processing is the identity on the
lower-case alphanumeric strings exercised here and is not modelled). -/

/-- Whitespace tokenisation, Python `s.split()`: runs of whitespace separate
tokens, empties are discarded. -/
def palabrasAux : List Char → List Char → List (List Char)
  | [], cur => if cur = [] then [] else [cur.reverse]
  | c :: rest, cur =>
    if c.isWhitespace then
      if cur = [] then palabrasAux rest [] else cur.reverse :: palabrasAux rest []
    else palabrasAux rest (c :: cur)

def palabras (l : List Char) : List (List Char) := palabrasAux l []

/-- Lexicographic comparison of character lists by code point (Python string
`sorted`). -/
def lexLe : List Char → List Char → Bool
  | [], _ => true
  | _ :: _, [] => false
  | a :: as, b :: bs =>
    if a.toNat < b.toNat then true
    else if b.toNat < a.toNat then false
    else lexLe as bs

/-- `" ".join(sorted(s.split()))`. -/
def ordTokens (l : List Char) : List Char :=
  List.intercalate [' '] (stableSort lexLe (palabras l))

/-- One dynamic-programming row update of the Levenshtein distance table. -/
def levGo (x : Char) : List Char → Nat → List Nat → Nat → List Nat
  | [], _, _, _ => []
  | b :: bs, pPrev, pRest, cur =>
    match pRest with
    | [] => []
    | pj :: pRest' =>
      let v := min (min (cur + 1) (pj + 1)) (pPrev + (if x = b then 0 else 1))
      v :: levGo x bs pj pRest' v

def levNextRow (bs : List Char) (x : Char) (prev : List Nat) : List Nat :=
  match prev with
  | [] => []
  | p0 :: prest => (p0 + 1) :: levGo x bs p0 prest (p0 + 1)

/-- Levenshtein edit distance via row-by-row dynamic programming. -/
def lev (a b : List Char) : Nat :=
  ((a.foldl (fun row x => levNextRow b x row)
    (List.range (b.length + 1))).getLast?.getD 0)

/-- Normalised edit-distance similarity in `0..100` (100 for equal strings). -/
def ratioSimple (a b : List Char) : Nat :=
  let t := a.length + b.length
  if t = 0 then 0 else (100 * (t - lev a b)) / t

/-- All contiguous windows of length `n`. -/
def ventanas (n : Nat) (l : List Char) : List (List Char) :=
  if n ≤ l.length then
    (List.range (l.length - n + 1)).map (fun i => (l.drop i).take n)
  else []

/-- Best-aligned-substring similarity: the shorter string against every
window of the longer one. -/
def ratioParcial (a b : List Char) : Nat :=
  let p := if a.length ≤ b.length then (a, b) else (b, a)
  ((ventanas p.1.length p.2).map (ratioSimple p.1)).foldl max 0

/-- The scorer used by the fuzzy phase. -/
def ratioTokenSort (q p : String) : Nat :=
  ratioParcial (ordTokens q.data) (ordTokens p.data)

/-- `process.extract(consulta, pool, limit=k, scorer=...)`: score every
choice, order by score descending (stable), keep the first `k`. -/
def extraerTop (consulta : String) (pool : List String) (k : Nat) :
    List (String × Nat) :=
  (stableSort (fun a b => decide (b.2 ≤ a.2))
    (pool.map (fun p => (p, ratioTokenSort consulta p)))).take k

/-! ## SearchIndex: `buscar_producto` (src/motor_precios.py:792-871)

The engine state needed by search: the catalog (insertion-ordered), the
per-supplier margin dict, the global default and the fuzzy threshold. -/

structure Motor where
  proveedores : List (String × List NormalizedRow)
  margenes : List (String × MargenRaw)
  margen_default : ℚ
  umbral_fuzzy : Nat
deriving Repr

/-- `obtener_info_config` (src/motor_precios.py:753-767). -/
def obtener_info_config (m : Motor) (proveedor : String) : SupplierConfig :=
  match dictGet m.margenes proveedor with
  | some (.record mg d1 d2) => ⟨mg.getD 0, d1.getD 0, d2.getD 0⟩
  | some (.scalar q) => ⟨q, 0, 0⟩
  | none => ⟨m.margen_default, 0, 0⟩

/-- A search hit.  `config` is the snapshot attached to the hit. -/
structure Hit where
  codigo : String
  producto : String
  proveedor : String
  precio_costo : ℚ
  config : SupplierConfig
  precio_final : ℚ
  score_busqueda : Nat
deriving DecidableEq, Repr

/-- Substring test (`in`); the source feeds the query to pandas
`str.contains`, whose regex reading coincides with the literal substring test
for metacharacter-free queries, the case modelled here.  The empty pattern
matches everywhere. -/
def containsSub (hay pat : List Char) : Bool :=
  hay.tails.any (pat.isPrefixOf ·)

/-- Build the hit for one matched row.  The cost round-trip
`float(str(pc).replace("$", "").replace(",", "."))` is the identity on the
already-parsed rational cost. -/
def mkHit (nom : String) (cfg : SupplierConfig) (r : NormalizedRow)
    (score : Nat) : Hit :=
  ⟨r.codigo, r.producto, nom, r.precio, cfg,
   calcular_precio_final r.precio cfg, score⟩

/-- Phase 1, one supplier: rows whose lower-cased product or code contains
the query, capped at `limite`, each with score 100. -/
def exactHits (m : Motor) (consulta : String) (limite : Nat) (nom : String)
    (df : List NormalizedRow) : List Hit :=
  let cfg := obtener_info_config m nom
  ((df.filter (fun r =>
      containsSub (pyLower r.producto).data consulta.data ||
      containsSub (pyLower r.codigo).data consulta.data)).take limite).map
    (fun r => mkHit nom cfg r 100)

/-- Phase 1 over the supplier list, with the accumulated-hits early exit
(`if len(resultados) >= limite * 2: break`, checked after each processed
supplier; skipped suppliers bypass the check via `continue`).  The source's
column-presence `continue` and its regex-error `except` cannot fire here:
modelled tables always carry the three fields and the query is a literal. -/
def fase1Go (m : Motor) (consulta : String) (limite : Nat)
    (target : Option String) (acc : List Hit) :
    List (String × List NormalizedRow) → List Hit
  | [] => acc
  | (nom, df) :: rest =>
    if target.isSome ∧ target ≠ some nom then
      fase1Go m consulta limite target acc rest
    else if df = [] then fase1Go m consulta limite target acc rest
    else
      let acc' := acc ++ exactHits m consulta limite nom df
      if limite * 2 ≤ acc'.length then acc'
      else fase1Go m consulta limite target acc' rest

def fase1 (m : Motor) (consulta : String) (limite : Nat)
    (target : Option String) : List Hit :=
  fase1Go m consulta limite target [] m.proveedores

/-- One step of the phase-2 match loop: threshold filter, duplicate filter,
first-row lookup (`iloc[0]`), append. -/
def fuzzyStep (m : Motor) (nom : String) (df : List NormalizedRow)
    (cfg : SupplierConfig) (acc : List Hit) (ms : String × Nat) : List Hit :=
  if ms.2 < m.umbral_fuzzy then acc
  else if acc.any (fun r => r.producto = ms.1 ∧ r.proveedor = nom) then acc
  else
    match df.find? (fun r => r.producto = ms.1) with
    | none => acc
    | some row => acc ++ [mkHit nom cfg row ms.2]

/-- Phase 2, one supplier: top-5 fuzzy matches over the product pool,
filtered by the threshold and the duplicate check, appended in match order. -/
def fuzzyHits (m : Motor) (consulta : String) (nom : String)
    (df : List NormalizedRow) (acc : List Hit) : List Hit :=
  let cfg := obtener_info_config m nom
  let pool := df.map (·.producto)
  (extraerTop consulta pool 5).foldl (fuzzyStep m nom df cfg) acc

/-- Phase 2 over the supplier list (no early exit). -/
def fase2 (m : Motor) (consulta : String) (target : Option String)
    (acc : List Hit) : List (String × List NormalizedRow) → List Hit
  | [] => acc
  | (nom, df) :: rest =>
    if target.isSome ∧ target ≠ some nom then fase2 m consulta target acc rest
    else if df = [] then fase2 m consulta target acc rest
    else fase2 m consulta target (fuzzyHits m consulta nom df acc) rest

/-- Descending stable comparison on scores
(`sort(key=..., reverse=True)`). -/
def scoreDesc (a b : Hit) : Bool :=
  decide (b.score_busqueda ≤ a.score_busqueda)

/-- `buscar_producto`: normalise the query, run the substring phase, run the
fuzzy phase when fewer than 5 hits and the query is longer than 3 characters,
sort by score descending and truncate. -/
def buscar_producto (m : Motor) (consulta : String) (limite : Nat)
    (target : Option String) : List Hit :=
  let consulta := pyStrip (pyLower consulta)
  let r1 := fase1 m consulta limite target
  let r2 :=
    if r1.length < 5 ∧ 3 < consulta.length then
      fase2 m consulta target r1 m.proveedores
    else r1
  (stableSort scoreDesc r2).take limite

/-! ## ConfigStore: `_cargar_margenes` / `_guardar_margenes` / `actualizar_margen`
(src/motor_precios.py:56-71, 885-906) -/

/-- The persisted configuration document: a JSON object whose keys may each
be absent. -/
structure ConfigDoc where
  margenes_por_proveedor : Option (List (String × MargenRaw))
  margen_default : Option ℚ
  umbral_busqueda_fuzzy : Option Nat
  moneda : Option String
  drive_folder_id : Option String
deriving DecidableEq, Repr

/-- The in-memory configuration fields of the engine. -/
structure ConfigState where
  margenes : List (String × MargenRaw)
  margen_default : ℚ
  umbral_fuzzy : Nat
  moneda : String
  drive_folder_id : String
deriving DecidableEq, Repr

/-- `_cargar_margenes`: read each key with its default. -/
def cargarMargenes (doc : ConfigDoc) : ConfigState :=
  ⟨doc.margenes_por_proveedor.getD [],
   doc.margen_default.getD 20,
   doc.umbral_busqueda_fuzzy.getD 60,
   doc.moneda.getD "ARS",
   doc.drive_folder_id.getD ""⟩

/-- `_guardar_margenes`: the document written to disk — four keys only. -/
def guardarMargenes (st : ConfigState) : ConfigDoc :=
  ⟨some st.margenes, some st.margen_default, some st.umbral_fuzzy,
   some st.moneda, none⟩

/-- Python dict assignment `d[k] = v`: replace in place, else append. -/
def dictSet (l : List (String × α)) (k : String) (v : α) : List (String × α) :=
  if l.any (fun p => p.1 = k) then
    l.map (fun p => if p.1 = k then (k, v) else p)
  else l ++ [(k, v)]

/-- `actualizar_margen`: store a record when a discount is positive, a bare
scalar otherwise, then persist.  Returns the new state and the written
document. -/
def actualizar_margen (st : ConfigState) (proveedor : String)
    (margen d1 d2 : ℚ) : ConfigState × ConfigDoc :=
  let raw : MargenRaw :=
    if d1 > 0 ∨ d2 > 0 then .record (some margen) (some d1) (some d2)
    else .scalar margen
  let st' := { st with margenes := dictSet st.margenes proveedor raw }
  (st', guardarMargenes st')

/-! ## Concrete instances used by witnesses and counterexamples -/

/-- A one-supplier, one-product engine state. -/
def M4c : Motor := ⟨[("prov", [⟨"", "martillo bola", 100⟩])], [], 20, 60⟩

/-- Catalog whose only product is a token permutation of the query used
against it. -/
def M7c : Motor := ⟨[("prov", [⟨"", "bolsa negra", 100⟩])], [], 20, 60⟩

/-- The hit `M4c` produces for the empty query. -/
def hit4 : Hit := ⟨"", "martillo bola", "prov", 100, ⟨20, 0, 0⟩, 120, 100⟩

/-- One-row supplier table matching the query `"clavo"`. -/
def T9 : List NormalizedRow := [⟨"", "clavo acero", 10⟩]

/-- Engine state for the early-exit instance. -/
def M9c : Motor := ⟨[("a", T9), ("b", T9), ("c", T9)], [], 20, 60⟩

/-- Two suppliers that already satisfy the `2 × limit` bound at limit 1. -/
def pre9 : List (String × List NormalizedRow) := [("a", T9), ("b", T9)]

/-- A later supplier that also matches the query. -/
def suf9 : List (String × List NormalizedRow) := [("c", T9)]

/-- A 3-column grid (reader labels `0,1,2`) whose automatic inference finds
the product in column 1 and the price in column 2. -/
def G5c : DF := ⟨["0", "1", "2"],
  [["", "martillo grande uno", "10,50"],
   ["", "destornillador plano", "20,00"],
   ["", "pinza universal media", "30,25"],
   ["", "llave inglesa chica", "15,75"]]⟩

/-- An out-of-range manual mapping for `G5c` (price column 5 of 0..2). -/
def mp5c : Mapeo := { col_producto := 1, col_precio := 5 }

/-- An already-labelled grid taking the short-circuit path. -/
def GTc : DF := ⟨["Producto", "Precio de Costo"], [["martillo x", "9"]]⟩

/-- A per-supplier map whose only entry is a record without `margen`. -/
def M10c : Motor := ⟨[], [("a", .record none (some 5) none)], 20, 60⟩

/-- A configuration document carrying every key, including a non-empty
`drive_folder_id`. -/
def doc6 : ConfigDoc := ⟨some [], some 25, some 70, some "USD", some "CARPETA"⟩

/-! ## Helper lemmas -/

attribute [local semireducible] Rat.add Rat.mul Rat.sub Rat.inv Rat.ofScientific

theorem posParse_pos {l : List Char} {q : ℚ} (h : posParse l = some q) : 0 < q := by
  unfold posParse at h
  split at h
  · split at h
    · cases h; assumption
    · cases h
  · cases h

theorem limpiar_precio_pos {v : String} {q : ℚ}
    (h : limpiar_precio v = some q) : 0 < q :=
  posParse_pos h

theorem mem_limpiezaFinal {rows : List RawRow} {r : NormalizedRow}
    (h : r ∈ limpiezaFinal rows) : 0 < r.precio ∧ 1 < r.producto.length := by
  unfold limpiezaFinal at h
  obtain ⟨a, -, ha⟩ := List.mem_filterMap.mp h
  split at ha
  · cases ha
  · next c hc =>
    have ha' : (if 1 < (pyStrip a.producto).length then
        some (⟨limpiezaCodigo a.codigo, pyStrip a.producto, c⟩ : NormalizedRow)
      else none) = some r := ha
    split at ha'
    · next hl => cases ha'; exact ⟨limpiar_precio_pos hc, hl⟩
    · cases ha'

theorem pySplit_ne_nil (sep : Char) (l : List Char) : pySplit sep l ≠ [] := by
  cases l with
  | nil => simp [pySplit]
  | cons c rest =>
    simp only [pySplit]
    split
    · simp
    · split <;> simp

theorem pySplit_length_pos {sep : Char} {l : List Char} (h : sep ∈ l) :
    1 < (pySplit sep l).length := by
  induction l with
  | nil => cases h
  | cons c rest ih =>
    simp only [pySplit]
    by_cases hc : c = sep
    · rw [if_pos hc]
      have := pySplit_ne_nil sep rest
      cases hr : pySplit sep rest with
      | nil => exact absurd hr this
      | cons g gs => simp
    · rw [if_neg hc]
      have hmem : sep ∈ rest := by
        cases h with
        | head => exact absurd rfl hc
        | tail _ h => exact h
      have := ih hmem
      cases hr : pySplit sep rest with
      | nil => exact absurd hr (pySplit_ne_nil sep rest)
      | cons g gs => rw [hr] at this; simpa using this

/-! ## Claim C1 -/

/-- C1: for non-negative discounts, `calcular_precio_final` equals the
rounded closed-form cascade `c·(1−d1/100)·(1−d2/100)·(1+m/100)` — skipping a
zero discount is the same as applying it. -/
theorem calcular_precio_final_spec (c : ℚ) (k : SupplierConfig)
    (h1 : 0 ≤ k.desc1) (h2 : 0 ≤ k.desc2) :
    calcular_precio_final c k =
      round2 (c * (1 - k.desc1 / 100) * (1 - k.desc2 / 100) * (1 + k.margen / 100)) := by
  have F : ∀ x d : ℚ, 0 ≤ d →
      (if d > 0 then x * (1 - d / 100) else x) = x * (1 - d / 100) := by
    intro x d hd
    split
    · rfl
    · next hneg => rw [le_antisymm (not_lt.mp hneg) hd]; ring
  simp only [calcular_precio_final]
  rw [F _ _ h1, F _ _ h2]

/-- Witness for C1 at cost 1000, markup 50%, no discounts. -/
theorem calcular_precio_final_spec_w :
    calcular_precio_final 1000 ⟨50, 0, 0⟩ =
      round2 (1000 * (1 - 0 / 100) * (1 - 0 / 100) * (1 + 50 / 100)) :=
  calcular_precio_final_spec 1000 ⟨50, 0, 0⟩ (by norm_num) (by norm_num)

/-! ## Claim C2 -/

/-- C2 counterexample: on `".500"` the code removes the dot (value `500`)
although no digit group precedes it, where the claim predicts the decimal
reading `0.5`; on `".+50"` the code removes the dot (value `50`) although the
last segment `+50` is not three digits, where the claim predicts rejection. -/
theorem limpiar_precio_thousand_cex :
    limpiar_precio ".500" = some 500 ∧ claimC2_value ".500" = some (1/2) ∧
    limpiar_precio ".+50" = some 50 ∧ claimC2_value ".+50" = none := by
  refine ⟨?_, ?_, ?_, ?_⟩ <;> decide

/-- C2 amended: for a token whose cleaned form contains `.` but no `,`, the
dots are removed exactly when the segment after the last `.` consists of
exactly three characters (whatever they are, and regardless of what precedes
the dot); otherwise the dot is kept as decimal separator.  The three example
tokens normalise as claimed, and every accepted token parses to a strictly
positive value. -/
theorem limpiar_precio_thousand_amended :
    (∀ v : String,
        ',' ∉ (cleanTok v).data → '.' ∈ (cleanTok v).data →
        limpiar_precio v =
          if (lastSeg '.' (cleanTok v).data).length = 3 then
            posParse ((cleanTok v).data.filter (· ≠ '.'))
          else posParse (cleanTok v).data) ∧
    limpiar_precio "108.200" = some 108200 ∧
    limpiar_precio "1.234,56" = some (1234.56 : ℚ) ∧
    limpiar_precio "100.50" = some (100.50 : ℚ) ∧
    (∀ (v : String) (q : ℚ), limpiar_precio v = some q → 0 < q) := by
  refine ⟨?_, by decide, by decide,
    by decide, fun v q h => limpiar_precio_pos h⟩
  intro v hc hd
  have hgt : 1 < (pySplit '.' (cleanTok v).data).length := pySplit_length_pos hd
  unfold limpiar_precio normalizarSeparadores
  rw [if_neg (fun h => hc h.1), if_neg hc, if_pos hd]
  by_cases h3 : (lastSeg '.' (cleanTok v).data).length = 3
  · rw [if_pos ⟨hgt, h3⟩, if_pos h3]
  · rw [if_neg (fun h => h3 h.2), if_neg h3]

/-- Witness for C2 (amended) at the token `"2.500"`. -/
theorem limpiar_precio_thousand_amended_w :
    limpiar_precio "2.500" =
      if (lastSeg '.' (cleanTok "2.500").data).length = 3 then
        posParse ((cleanTok "2.500").data.filter (· ≠ '.'))
      else posParse (cleanTok "2.500").data :=
  limpiar_precio_thousand_amended.1 "2.500" (by decide)
    (by decide)

/-! ## Claim C3 -/

/-- C3: every row of every table produced by
`_procesar_dataframe_inteligente` — through the short-circuit, manual or
automatic path, all of which end in `_limpieza_final` — has a strictly
positive cost and a (trimmed) product longer than one character. -/
theorem procesar_invariant (df : DF) (mapeo : Option Mapeo)
    (r : NormalizedRow) (h : r ∈ procesar df mapeo) :
    0 < r.precio ∧ 1 < r.producto.length :=
  mem_limpiezaFinal h

/-- Witness for C3: the single row surviving the cleanup of `GTc`. -/
theorem procesar_invariant_w :
    0 < (⟨"", "martillo x", (9 : ℚ)⟩ : NormalizedRow).precio ∧
    1 < (⟨"", "martillo x", (9 : ℚ)⟩ : NormalizedRow).producto.length :=
  procesar_invariant GTc none ⟨"", "martillo x", (9 : ℚ)⟩
    (by decide)

/-! ## Claim C10 -/

/-- C10: a per-supplier record entry takes each missing field as 0 — the
global default markup is not substituted into records — while a missing entry
falls back to the scalar global default with zero discounts (and a scalar
entry is that markup with zero discounts). -/
theorem obtener_info_config_defaults (m : Motor) (prov : String) :
    (∀ mg d1 d2 : Option ℚ,
        dictGet m.margenes prov = some (.record mg d1 d2) →
        obtener_info_config m prov = ⟨mg.getD 0, d1.getD 0, d2.getD 0⟩) ∧
    (∀ q : ℚ, dictGet m.margenes prov = some (.scalar q) →
        obtener_info_config m prov = ⟨q, 0, 0⟩) ∧
    (dictGet m.margenes prov = none →
        obtener_info_config m prov = ⟨m.margen_default, 0, 0⟩) := by
  refine ⟨fun mg d1 d2 h => ?_, fun q h => ?_, fun h => ?_⟩ <;>
    · unfold obtener_info_config
      rw [h]

/-- Witness for C10: the record `{desc1: 5}` yields markup 0 (not the global
default 20), and an absent supplier yields the default. -/
theorem obtener_info_config_defaults_w :
    obtener_info_config M10c "a" = ⟨0, 5, 0⟩ ∧
    obtener_info_config M10c "b" = ⟨20, 0, 0⟩ :=
  ⟨(obtener_info_config_defaults M10c "a").1 none (some 5) none
      (by decide),
   (obtener_info_config_defaults M10c "b").2.2 (by decide)⟩

/-! ## Claim C5 -/

/-- C5 counterexample: on the grid `G5c`, the manual mapping with price
column 5 (out of range 0..2) makes ingestion return the empty table, while
the automatic column-density path on the same grid succeeds — so the source
does not fall back to automatic inference on an out-of-range mapping. -/
theorem mapeo_fuera_rango_cex :
    procesar G5c (some mp5c) = [] ∧ procesarAuto G5c ≠ [] := by
  constructor <;> decide

/-- C5 amended: an out-of-range product or price index in the manual mapping
is rejected with an empty table (`return pd.DataFrame()`); the automatic path
is used as a fallback only when applying the mapping raises an exception, not
on the explicit range check. -/
theorem mapeo_fuera_rango_amended (df : DF) (mp : Mapeo)
    (hsc : ¬ ("Producto" ∈ df.cols ∧ "Precio de Costo" ∈ df.cols))
    (hrows : ¬ df.rows.length = 0)
    (hout : mp.col_producto > (df.cols.length : Int) - 1 ∨
            mp.col_precio > (df.cols.length : Int) - 1) :
    procesar df (some mp) = [] := by
  have hman : seleccionManual df mp = some [] := by
    unfold seleccionManual
    rw [if_pos hout]
  unfold procesar seleccionFilas
  rw [if_neg hsc, if_neg hrows]
  show limpiezaFinal
      (match seleccionManual df mp with
      | some res => res
      | none => seleccionAuto df) = []
  rw [hman]
  rfl

/-- Witness for C5 (amended) at the concrete grid and mapping of the
counterexample. -/
theorem mapeo_fuera_rango_amended_w : procesar G5c (some mp5c) = [] :=
  mapeo_fuera_rango_amended G5c mp5c (by decide) (by decide) (by decide)

/-! ## Claim C6 -/

/-- C6 counterexample: starting from a document whose `drive_folder_id` is
`"CARPETA"`, an `actualizar_margen` writes a document without that key, and
re-reading yields the default empty string — the untouched key is lost, so
the persisted document is not structurally equal to the loaded one. -/
theorem guardar_margenes_cex :
    (actualizar_margen (cargarMargenes doc6) "ferre" 30 0 0).2.drive_folder_id
        = none ∧
    (cargarMargenes
        (actualizar_margen (cargarMargenes doc6) "ferre" 30 0 0).2).drive_folder_id
        = "" ∧
    (cargarMargenes doc6).drive_folder_id = "CARPETA" := by
  refine ⟨rfl, rfl, rfl⟩

/-- C6 amended: persisting writes exactly the four keys
`margenes_por_proveedor`, `margen_default`, `umbral_busqueda_fuzzy` and
`moneda` (in place, with no write-then-replace step), so re-reading restores
those four fields of the state while `drive_folder_id` resets to the empty
default; the same holds across `actualizar_margen`. -/
theorem guardar_margenes_amended :
    (∀ st : ConfigState,
        cargarMargenes (guardarMargenes st) = { st with drive_folder_id := "" }) ∧
    (∀ (st : ConfigState) (prov : String) (mg d1 d2 : ℚ),
        cargarMargenes (actualizar_margen st prov mg d1 d2).2 =
          { (actualizar_margen st prov mg d1 d2).1 with drive_folder_id := "" }) :=
  ⟨fun _ => rfl, fun _ _ _ _ _ => rfl⟩

/-! ## Sorting lemmas -/

theorem mem_insStable {le : α → α → Bool} {x a : α} {l : List α} :
    a ∈ insStable le x l ↔ a = x ∨ a ∈ l := by
  induction l with
  | nil => simp [insStable]
  | cons y r ih =>
    unfold insStable
    split
    · simp [List.mem_cons]
    · simp [List.mem_cons, ih]
      tauto

theorem mem_stableSort {le : α → α → Bool} {a : α} {l : List α} :
    a ∈ stableSort le l ↔ a ∈ l := by
  induction l with
  | nil => simp [stableSort]
  | cons x r ih => simp [stableSort, mem_insStable, ih]

theorem length_insStable (le : α → α → Bool) (x : α) (l : List α) :
    (insStable le x l).length = l.length + 1 := by
  induction l with
  | nil => simp [insStable]
  | cons y r ih =>
    unfold insStable
    split
    · simp
    · simp [ih]

theorem length_stableSort (le : α → α → Bool) (l : List α) :
    (stableSort le l).length = l.length := by
  induction l with
  | nil => simp [stableSort]
  | cons x r ih => simp [stableSort, length_insStable, ih]

theorem pairwise_insStable {le : α → α → Bool}
    (htot : ∀ a b, le a b = true ∨ le b a = true)
    (htrans : ∀ a b c, le a b = true → le b c = true → le a c = true)
    (x : α) {l : List α} (hl : l.Pairwise (fun a b => le a b = true)) :
    (insStable le x l).Pairwise (fun a b => le a b = true) := by
  induction l with
  | nil => simp [insStable]
  | cons y r ih =>
    obtain ⟨hy, hr⟩ := List.pairwise_cons.mp hl
    unfold insStable
    split
    · next hxy =>
      refine List.pairwise_cons.mpr ⟨?_, hl⟩
      intro b hb
      rcases List.mem_cons.mp hb with rfl | hb
      · exact hxy
      · exact htrans x y b hxy (hy b hb)
    · next hxy =>
      refine List.pairwise_cons.mpr ⟨?_, ih hr⟩
      intro b hb
      rcases mem_insStable.mp hb with rfl | hb
      · rcases htot y b with h | h
        · exact h
        · exact absurd h hxy
      · exact hy b hb

theorem pairwise_stableSort {le : α → α → Bool}
    (htot : ∀ a b, le a b = true ∨ le b a = true)
    (htrans : ∀ a b c, le a b = true → le b c = true → le a c = true)
    (l : List α) :
    (stableSort le l).Pairwise (fun a b => le a b = true) := by
  induction l with
  | nil => simp [stableSort]
  | cons x r ih => exact pairwise_insStable htot htrans x ih

/-! ## Claim C8 -/

/-- C8: the search result has at most `limite` hits and is ordered by score
descending — the accumulated hits are sorted by descending score (stable) and
truncated to the limit. -/
theorem buscar_sorted_truncated (m : Motor) (q : String) (L : Nat)
    (tgt : Option String) :
    (buscar_producto m q L tgt).length ≤ L ∧
    (buscar_producto m q L tgt).Pairwise
      (fun a b => b.score_busqueda ≤ a.score_busqueda) := by
  unfold buscar_producto
  constructor
  · exact List.length_take_le _ _
  · have htot : ∀ a b : Hit, scoreDesc a b = true ∨ scoreDesc b a = true := by
      intro a b
      unfold scoreDesc
      rcases Nat.le_total b.score_busqueda a.score_busqueda with h | h
      · exact Or.inl (decide_eq_true h)
      · exact Or.inr (decide_eq_true h)
    have htrans : ∀ a b c : Hit,
        scoreDesc a b = true → scoreDesc b c = true → scoreDesc a c = true := by
      intro a b c h1 h2
      exact decide_eq_true (Nat.le_trans (of_decide_eq_true h2) (of_decide_eq_true h1))
    have hp := pairwise_stableSort htot htrans
      (if (fase1 m (pyStrip (pyLower q)) L tgt).length < 5 ∧
          3 < (pyStrip (pyLower q)).length then
        fase2 m (pyStrip (pyLower q)) tgt (fase1 m (pyStrip (pyLower q)) L tgt)
          m.proveedores
      else fase1 m (pyStrip (pyLower q)) L tgt)
    have hsub := List.Pairwise.sublist (List.take_sublist L _) hp
    exact hsub.imp (fun h => of_decide_eq_true h)

/-! ## Claim C9 -/

theorem fase1Go_early_exit_aux (m : Motor) (q : String) (L : Nat)
    (tgt : Option String) :
    ∀ (pre suf : List (String × List NormalizedRow)) (acc : List Hit),
      acc.length < L * 2 →
      L * 2 ≤ (fase1Go m q L tgt acc pre).length →
      fase1Go m q L tgt acc (pre ++ suf) = fase1Go m q L tgt acc pre := by
  intro pre
  induction pre with
  | nil =>
    intro suf acc hacc hfull
    simp only [fase1Go] at hfull
    omega
  | cons p rest ih =>
    intro suf acc hacc hfull
    obtain ⟨nom, df⟩ := p
    have heq : ((nom, df) :: rest) ++ suf = (nom, df) :: (rest ++ suf) := rfl
    rw [heq]
    simp only [fase1Go] at hfull ⊢
    split_ifs at hfull ⊢ with h1 h2 h3
    · exact ih suf acc hacc hfull
    · exact ih suf acc hacc hfull
    · rfl
    · exact ih suf _ (Nat.lt_of_not_le h3) hfull

/-- C9: once the substring phase has accumulated `2 × limite` hits it breaks
out of the supplier loop, so any suppliers appended after that point never
contribute — even when their tables contain exact substring matches. -/
theorem fase1_early_exit (m : Motor) (q : String) (L : Nat)
    (tgt : Option String) (pre suf : List (String × List NormalizedRow))
    (hL : 0 < L) (hfull : L * 2 ≤ (fase1Go m q L tgt [] pre).length) :
    fase1Go m q L tgt [] (pre ++ suf) = fase1Go m q L tgt [] pre :=
  fase1Go_early_exit_aux m q L tgt pre suf [] (by simp; omega) hfull

/-- Witness for C9: with limit 1, the first two matching suppliers reach the
`2 × limit` bound and the third supplier — whose table contains an exact
substring match of the query — is never examined. -/
theorem fase1_early_exit_w :
    fase1Go M9c "clavo" 1 none [] (pre9 ++ suf9) =
      fase1Go M9c "clavo" 1 none [] pre9 :=
  fase1_early_exit M9c "clavo" 1 none pre9 suf9 (by decide) (by decide)

/-! ## Claim C4 -/

theorem containsSub_nil (hay : List Char) : containsSub hay [] = true := by
  cases hay <;> simp [containsSub, List.isPrefixOf]

/-- C4 counterexample: on a one-product catalog the empty query matches the
product (the empty string is a substring of everything), so the search
returns a hit instead of the empty list. -/
theorem buscar_empty_query_cex :
    buscar_producto M4c "" 20 none = [hit4] ∧ hit4.score_busqueda = 100 := by
  constructor <;> decide

theorem exactHits_empty_query_ne_nil (m : Motor) (L : Nat) (nom : String)
    (df : List NormalizedRow) (hdf : df ≠ []) (hL : 0 < L) :
    exactHits m "" L nom df ≠ [] := by
  unfold exactHits
  have hall : ∀ r ∈ df,
      (containsSub (pyLower r.producto).data ("" : String).data ||
       containsSub (pyLower r.codigo).data ("" : String).data) = true := by
    intro r _
    have h0 : ("" : String).data = [] := rfl
    rw [h0, containsSub_nil, Bool.true_or]
  rw [List.filter_eq_self.mpr hall]
  obtain ⟨d, ds, rfl⟩ := List.exists_cons_of_ne_nil hdf
  cases L with
  | zero => exact absurd hL (by omega)
  | succ LL => simp

/-- Phase 1 only ever appends to the accumulated hit list. -/
theorem fase1Go_append (m : Motor) (q : String) (L : Nat)
    (tgt : Option String) :
    ∀ (provs : List (String × List NormalizedRow)) (acc : List Hit),
      ∃ new, fase1Go m q L tgt acc provs = acc ++ new := by
  intro provs
  induction provs with
  | nil => exact fun acc => ⟨[], by simp [fase1Go]⟩
  | cons p rest ih =>
    intro acc
    obtain ⟨nom, df⟩ := p
    simp only [fase1Go]
    split
    · exact ih acc
    · split
      · exact ih acc
      · split
        · exact ⟨exactHits m q L nom df, rfl⟩
        · obtain ⟨new2, h2⟩ := ih (acc ++ exactHits m q L nom df)
          exact ⟨exactHits m q L nom df ++ new2, by rw [h2, List.append_assoc]⟩

/-- A catalog whose tables are all empty contributes nothing to phase 1. -/
theorem fase1Go_all_empty (m : Motor) (q : String) (L : Nat)
    (tgt : Option String) :
    ∀ (provs : List (String × List NormalizedRow)) (acc : List Hit),
      (∀ p ∈ provs, p.2 = ([] : List NormalizedRow)) →
      fase1Go m q L tgt acc provs = acc := by
  intro provs
  induction provs with
  | nil => exact fun acc _ => rfl
  | cons p rest ih =>
    intro acc hall
    obtain ⟨nom, df⟩ := p
    have hdf : df = [] := hall (nom, df) (List.mem_cons_self _ _)
    have htail : ∀ x ∈ rest, x.2 = ([] : List NormalizedRow) :=
      fun x hx => hall x (List.mem_cons_of_mem _ hx)
    simp only [fase1Go]
    by_cases h1 : tgt.isSome ∧ tgt ≠ some nom
    · rw [if_pos h1]
      exact ih acc htail
    · rw [if_neg h1, if_pos hdf]
      exact ih acc htail

/-- With the empty query and no supplier filter, phase 1 produces a hit as
soon as some supplier table has a row. -/
theorem fase1Go_empty_query_ne_nil (m : Motor) (L : Nat) (hL : 0 < L) :
    ∀ (provs : List (String × List NormalizedRow)) (acc : List Hit),
      (∃ p ∈ provs, p.2 ≠ ([] : List NormalizedRow)) →
      fase1Go m "" L none acc provs ≠ [] := by
  intro provs
  induction provs with
  | nil =>
    intro acc h
    obtain ⟨p, hp, -⟩ := h
    cases hp
  | cons p rest ih =>
    intro acc hex
    obtain ⟨nom, df⟩ := p
    simp only [fase1Go]
    rw [if_neg (by simp)]
    by_cases hdf : df = []
    · rw [if_pos hdf]
      apply ih acc
      obtain ⟨pp, hpp, hne⟩ := hex
      rcases List.mem_cons.mp hpp with rfl | hmem
      · exact absurd hdf hne
      · exact ⟨pp, hmem, hne⟩
    · rw [if_neg hdf]
      have he := exactHits_empty_query_ne_nil m L nom df hdf hL
      split
      · intro hcontra
        exact he (List.append_eq_nil.mp hcontra).2
      · obtain ⟨new, hnew⟩ :=
          fase1Go_append m "" L none rest (acc ++ exactHits m "" L nom df)
        rw [hnew]
        intro hcontra
        exact he (List.append_eq_nil.mp (List.append_eq_nil.mp hcontra).1).2

/-- C4 amended: with an empty (or whitespace-only, since the query is
lower-cased and stripped) query the search returns the empty list exactly
when the catalog contributes no rows: a catalog whose tables are all empty
yields `[]`, while any catalog containing a non-empty table, searched with a
positive limit and no supplier filter, yields at least one hit, because the
empty query's substring test accepts every row. -/
theorem buscar_empty_query_amended :
    (∀ (m : Motor) (q : String) (L : Nat) (tgt : Option String),
        pyStrip (pyLower q) = "" →
        (∀ p ∈ m.proveedores, p.2 = ([] : List NormalizedRow)) →
        buscar_producto m q L tgt = []) ∧
    (∀ (m : Motor) (q : String) (L : Nat),
        pyStrip (pyLower q) = "" → 0 < L →
        (∃ p ∈ m.proveedores, p.2 ≠ ([] : List NormalizedRow)) →
        buscar_producto m q L none ≠ []) := by
  constructor
  · intro m q L tgt hq hall
    simp only [buscar_producto, fase1, hq]
    rw [fase1Go_all_empty m "" L tgt m.proveedores [] hall]
    rw [if_neg (by intro h; exact absurd h.2 (by decide))]
    rw [show stableSort scoreDesc [] = [] from rfl, List.take_nil]
  · intro m q L hq hL hex
    simp only [buscar_producto, fase1, hq]
    have hr1 := fase1Go_empty_query_ne_nil m L hL m.proveedores [] hex
    rw [if_neg (by intro h; exact absurd h.2 (by decide))]
    intro hcontra
    have hlen := congrArg List.length hcontra
    rw [List.length_take, length_stableSort, List.length_nil] at hlen
    rcases Nat.min_eq_zero_iff.mp hlen with h | h
    · omega
    · exact hr1 (List.length_eq_zero.mp h)

/-- Witness for C4 (amended): a catalog with one empty table returns `[]`,
a catalog with one product does not. -/
theorem buscar_empty_query_amended_w :
    buscar_producto ⟨[("prov", [])], [], 20, 60⟩ "" 20 none = [] ∧
    buscar_producto ⟨[("prov", [⟨"", "martillo bola", (100 : ℚ)⟩])], [], 20, 60⟩
      "" 20 none ≠ [] :=
  ⟨buscar_empty_query_amended.1 ⟨[("prov", [])], [], 20, 60⟩ "" 20 none rfl
     (by decide),
   buscar_empty_query_amended.2
     ⟨[("prov", [⟨"", "martillo bola", (100 : ℚ)⟩])], [], 20, 60⟩ "" 20 rfl
     (by decide) (by decide)⟩

/-! ## Claim C7 -/

theorem ratioSimple_le_100 (a b : List Char) : ratioSimple a b ≤ 100 := by
  have he : ratioSimple a b = if a.length + b.length = 0 then 0
      else 100 * (a.length + b.length - lev a b) / (a.length + b.length) := rfl
  rw [he]
  split
  · omega
  · next ht =>
    have h1 : 100 * (a.length + b.length - lev a b) ≤
        100 * (a.length + b.length) := by
      apply Nat.mul_le_mul_left
      omega
    calc 100 * (a.length + b.length - lev a b) / (a.length + b.length)
        ≤ 100 * (a.length + b.length) / (a.length + b.length) :=
          Nat.div_le_div_right h1
      _ = 100 := Nat.mul_div_cancel 100 (Nat.pos_of_ne_zero ht)

theorem foldl_max_le {l : List Nat} {a n : Nat} (ha : a ≤ n)
    (hl : ∀ x ∈ l, x ≤ n) : l.foldl max a ≤ n := by
  induction l generalizing a with
  | nil => exact ha
  | cons x r ih =>
    simp only [List.foldl_cons]
    exact ih (max_le ha (hl x (List.mem_cons_self x r)))
      (fun y hy => hl y (List.mem_cons_of_mem x hy))

theorem ratioParcial_le_100 (a b : List Char) : ratioParcial a b ≤ 100 := by
  unfold ratioParcial
  apply foldl_max_le (by omega)
  intro x hx
  obtain ⟨w, -, rfl⟩ := List.mem_map.mp hx
  exact ratioSimple_le_100 _ _

theorem ratioTokenSort_le_100 (q p : String) : ratioTokenSort q p ≤ 100 :=
  ratioParcial_le_100 _ _

theorem mem_extraerTop_le_100 {q : String} {pool : List String} {k : Nat}
    {p : String × Nat} (h : p ∈ extraerTop q pool k) : p.2 ≤ 100 := by
  unfold extraerTop at h
  have h2 := mem_stableSort.mp (List.take_subset _ _ h)
  obtain ⟨x, -, rfl⟩ := List.mem_map.mp h2
  exact ratioTokenSort_le_100 q x

theorem fuzzyFold_spec (m : Motor) (nom : String) (df : List NormalizedRow)
    (cfg : SupplierConfig) :
    ∀ (ms : List (String × Nat)) (acc : List Hit), (∀ p ∈ ms, p.2 ≤ 100) →
      ∃ new, ms.foldl (fuzzyStep m nom df cfg) acc = acc ++ new ∧
        ∀ h ∈ new, m.umbral_fuzzy ≤ h.score_busqueda ∧ h.score_busqueda ≤ 100 := by
  intro ms
  induction ms with
  | nil => exact fun acc _ => ⟨[], by simp, by simp⟩
  | cons p rest ih =>
    intro acc hms
    simp only [List.foldl_cons]
    have hstep : ∃ s, fuzzyStep m nom df cfg acc p = acc ++ s ∧
        ∀ h ∈ s, m.umbral_fuzzy ≤ h.score_busqueda ∧ h.score_busqueda ≤ 100 := by
      unfold fuzzyStep
      split
      · exact ⟨[], by simp, by simp⟩
      · next hthr =>
        split
        · exact ⟨[], by simp, by simp⟩
        · split
          · exact ⟨[], by simp, by simp⟩
          · next row _ =>
            refine ⟨[mkHit nom cfg row p.2], rfl, ?_⟩
            intro h hh
            rw [List.mem_singleton] at hh
            subst hh
            exact ⟨Nat.not_lt.mp hthr, hms p (List.mem_cons_self p rest)⟩
    obtain ⟨s, hs, hsP⟩ := hstep
    rw [hs]
    obtain ⟨new2, h2, h2P⟩ :=
      ih (acc ++ s) (fun x hx => hms x (List.mem_cons_of_mem p hx))
    refine ⟨s ++ new2, by rw [h2, List.append_assoc], ?_⟩
    intro h hh
    rcases List.mem_append.mp hh with hh | hh
    · exact hsP h hh
    · exact h2P h hh

theorem fuzzyHits_spec (m : Motor) (q nom : String) (df : List NormalizedRow)
    (acc : List Hit) :
    ∃ new, fuzzyHits m q nom df acc = acc ++ new ∧
      ∀ h ∈ new, m.umbral_fuzzy ≤ h.score_busqueda ∧ h.score_busqueda ≤ 100 := by
  unfold fuzzyHits
  exact fuzzyFold_spec m nom df _ _ acc (fun p hp => mem_extraerTop_le_100 hp)

theorem fase2_spec (m : Motor) (q : String) (tgt : Option String) :
    ∀ (provs : List (String × List NormalizedRow)) (acc : List Hit),
      ∃ new, fase2 m q tgt acc provs = acc ++ new ∧
        ∀ h ∈ new, m.umbral_fuzzy ≤ h.score_busqueda ∧ h.score_busqueda ≤ 100 := by
  intro provs
  induction provs with
  | nil => exact fun acc => ⟨[], by simp [fase2], by simp⟩
  | cons p rest ih =>
    intro acc
    obtain ⟨nom, df⟩ := p
    simp only [fase2]
    split
    · exact ih acc
    · split
      · exact ih acc
      · obtain ⟨n1, h1, h1P⟩ := fuzzyHits_spec m q nom df acc
        obtain ⟨n2, h2, h2P⟩ := ih (fuzzyHits m q nom df acc)
        refine ⟨n1 ++ n2, by rw [h2, h1, List.append_assoc], ?_⟩
        intro h hh
        rcases List.mem_append.mp hh with hh | hh
        · exact h1P h hh
        · exact h2P h hh

theorem fase1Go_scores (m : Motor) (q : String) (L : Nat)
    (tgt : Option String) :
    ∀ (provs : List (String × List NormalizedRow)) (acc : List Hit),
      (∀ h ∈ acc, h.score_busqueda = 100) →
      ∀ h ∈ fase1Go m q L tgt acc provs, h.score_busqueda = 100 := by
  intro provs
  induction provs with
  | nil =>
    intro acc hacc h hh
    simp only [fase1Go] at hh
    exact hacc h hh
  | cons p rest ih =>
    intro acc hacc h hh
    obtain ⟨nom, df⟩ := p
    have hacc' : ∀ x ∈ acc ++ exactHits m q L nom df, x.score_busqueda = 100 := by
      intro x hx
      rcases List.mem_append.mp hx with hx | hx
      · exact hacc x hx
      · unfold exactHits at hx
        obtain ⟨r, -, rfl⟩ := List.mem_map.mp hx
        rfl
    simp only [fase1Go] at hh
    split at hh
    · exact ih acc hacc h hh
    · split at hh
      · exact ih acc hacc h hh
      · split at hh
        · exact hacc' h hh
        · exact ih _ hacc' h hh

/-- C7 counterexample: the query `"negra bolsa"` has no substring match in
`M7c` (phase 1 is empty), yet the fuzzy phase scores the token permutation
`"bolsa negra"` at exactly 100 — so a fuzzy hit can carry score 100, which
the claim reserves for substring hits. -/
theorem score_fuzzy_100_cex :
    fase1 M7c "negra bolsa" 20 none = [] ∧
    (buscar_producto M7c "negra bolsa" 20 none).map (·.score_busqueda) = [100] := by
  constructor <;> decide

/-- C7 amended: every substring-phase hit carries score exactly 100, and
every fuzzy-phase hit carries a score between the configured threshold and
100 inclusive (score 100 is not reserved for substring hits). -/
theorem scores_bounds_amended :
    (∀ (m : Motor) (q : String) (L : Nat) (tgt : Option String) (h : Hit),
        h ∈ fase1 m q L tgt → h.score_busqueda = 100) ∧
    (∀ (m : Motor) (q : String) (tgt : Option String) (acc : List Hit)
        (provs : List (String × List NormalizedRow)),
        ∃ new, fase2 m q tgt acc provs = acc ++ new ∧
          ∀ h ∈ new, m.umbral_fuzzy ≤ h.score_busqueda ∧ h.score_busqueda ≤ 100) :=
  ⟨fun m q L tgt h hh => fase1Go_scores m q L tgt m.proveedores [] (by simp) h hh,
   fun m q tgt acc provs => fase2_spec m q tgt provs acc⟩

/-- Witness for C7 (amended): the hit found by the substring phase of `M4c`
scores 100. -/
theorem scores_bounds_amended_w : hit4.score_busqueda = 100 :=
  scores_bounds_amended.1 M4c "" 20 none hit4 (by decide)

end Ferreteria
